import Mathlib

/-!
Verification of the pynet repository excerpt: the multi-channel VAE example
script (`examples/vae/multi_channels_vae.py`) and the model registry module
(`pynet/models/__init__.py`).

Numerical arrays are modelled as rational-valued matrices with explicit
shapes.  numpy's globally seeded random streams, `np.sqrt` and the factors of
`np.linalg.svd` are abstracted into an environment `NumEnv` of deterministic
functions; every definition below is parametric in that environment and
follows the corresponding Python source line by line.
-/

namespace PyNet

/-- A 2-D numpy array / torch tensor: an explicit shape plus an entry
function (entries outside the shape are irrelevant). -/
structure Mat where
  r : ℕ
  c : ℕ
  e : ℕ → ℕ → ℚ

instance : Inhabited Mat := ⟨⟨0, 0, fun _ _ => 0⟩⟩

/-- `arr.shape` of a 2-D array. -/
def Mat.shape (m : Mat) : ℕ × ℕ := (m.r, m.c)

/-- `np.random`'s global state: the seed last set and the number of samples
drawn since. -/
structure RNGState where
  sd : ℤ
  ctr : ℕ

/-- `np.random.seed(n)`: resets the global stream, discarding whatever the
ambient state was. -/
def npseed (n : ℤ) (_ : RNGState) : RNGState := ⟨n, 0⟩

/-- The ambient numerical environment: deterministic models of numpy's seeded
sample streams (seed and draw index determine the sample), of `np.sqrt`, and
of the `u`/`vt` factors of `np.linalg.svd(-, full_matrices=False)`. -/
structure NumEnv where
  uniformAt : ℤ → ℕ → ℚ
  normalAt : ℤ → ℕ → ℚ
  randnAt : ℤ → ℕ → ℚ
  sqrtq : ℚ → ℚ
  svdU : Mat → Mat
  svdVt : Mat → Mat

/-- Draw a `rows × cols` matrix of samples from a seeded stream, advancing the
global draw counter. -/
def drawMat (stream : ℤ → ℕ → ℚ) (st : RNGState) (rows cols : ℕ) :
    Mat × RNGState :=
  (⟨rows, cols, fun i j => stream st.sd (st.ctr + (i * cols + j))⟩,
   ⟨st.sd, st.ctr + rows * cols⟩)

/-- `m.T`. -/
def Mat.transpose (m : Mat) : Mat := ⟨m.c, m.r, fun i j => m.e j i⟩

/-- Matrix product (shape `(a.r, b.c)`). -/
def matMul (a b : Mat) : Mat :=
  ⟨a.r, b.c, fun i j => ∑ k ∈ Finset.range a.c, a.e i k * b.e k j⟩

/-- `torch.nn.Linear(lat_dim, n_feats, bias=False)` with weight `w` applied to
a batch `z`: `z @ w.T`. -/
def linearApply (w z : Mat) : Mat := matMul z w.transpose

/-- Entrywise sum of two arrays of the same shape. -/
def Mat.add (a b : Mat) : Mat := ⟨a.r, a.c, fun i j => a.e i j + b.e i j⟩

/-- `GeneratorUniform` (multi_channels_vae.py lines 43-67): per channel, an
`n_feats × lat_dim` weight matrix obtained from the SVD of a uniform random
matrix. -/
structure GeneratorUniform where
  lat_dim : ℕ
  n_channels : ℕ
  n_feats : ℕ
  seed : ℤ
  W : List Mat

/-- The weight-construction loop of `GeneratorUniform.__init__`: for each
channel draw `w_ = np.random.uniform(-1, 1, (n_feats, lat_dim))`, take `u`
of its reduced SVD when `n_feats >= lat_dim` (else `vt`), threading the
global RNG state through the draws. -/
def buildW (env : NumEnv) (lat_dim n_feats : ℕ) :
    ℕ → RNGState → List Mat × RNGState
  | 0, st => ([], st)
  | k + 1, st =>
    let p := drawMat env.uniformAt st n_feats lat_dim
    let w := if lat_dim ≤ n_feats then env.svdU p.1 else env.svdVt p.1
    let rest := buildW env lat_dim n_feats k p.2
    (w :: rest.1, rest.2)

/-- `GeneratorUniform.__init__`: seeds the global RNG with `seed` (discarding
the ambient state `rng`) and builds the per-channel weights. -/
def GeneratorUniform.init (env : NumEnv) (lat_dim n_channels n_feats : ℕ)
    (seed : ℤ) (rng : RNGState) : GeneratorUniform :=
  let st0 := npseed seed rng
  let ws := buildW env lat_dim n_feats n_channels st0
  ⟨lat_dim, n_channels, n_feats, seed, ws.1⟩

/-- `GeneratorUniform.forward` on a tensor input: asserts
`z.size(1) == lat_dim` (modelled as returning `none` on failure), then maps
each channel's linear layer over `z`. -/
def GeneratorUniform.forward (g : GeneratorUniform) (z : Mat) :
    Option (List Mat) :=
  if z.c = g.lat_dim then
    some ((List.range g.n_channels).map
      (fun ch => linearApply (g.W.getD ch default) z))
  else none

/-- Column mean of `sklearn`'s `StandardScaler.fit`. -/
def colMean (m : Mat) (j : ℕ) : ℚ := (∑ i ∈ Finset.range m.r, m.e i j) / m.r

/-- Column (biased) variance of `StandardScaler.fit`. -/
def colVar (m : Mat) (j : ℕ) : ℚ :=
  (∑ i ∈ Finset.range m.r, (m.e i j - colMean m j) ^ 2) / m.r

/-- `StandardScaler`'s per-column scale: the square root of the variance,
with zero scales replaced by 1. -/
def colScale (env : NumEnv) (m : Mat) (j : ℕ) : ℚ :=
  let s := env.sqrtq (colVar m j)
  if s = 0 then 1 else s

/-- `StandardScaler().fit(m).transform(m)`. -/
def standardize (env : NumEnv) (m : Mat) : Mat :=
  ⟨m.r, m.c, fun i j => (m.e i j - colMean m j) / colScale env m j⟩

/-- Python `int()` on a rational: truncation toward zero. -/
def pyInt (q : ℚ) : ℤ := if 0 ≤ q then ⌊q⌋ else -⌊-q⌋

/-- The noise seed computed in `preprocess_and_add_noise` (lines 117-119):
`seed + 3 * int(snr[0] + 1) + 5 * len(x) + 7 * x[0].shape[0] +
11 * x[0].shape[1]`, for a scalar `snr` broadcast over channels. -/
def preprocessSeed (x : List Mat) (snrv : ℚ) (seed0 : ℤ) : ℤ :=
  seed0 + 3 * pyInt (snrv + 1) + 5 * (x.length : ℤ)
    + 7 * ((x.getD 0 default).r : ℤ) + 11 * ((x.getD 0 default).c : ℤ)

/-- The noise arrays appended in the loop of lines 121-124: for each channel,
`sigma_noise * np.random.randn(*arr.shape)` with
`sigma_noise = np.sqrt(1 / snr)`, consuming the seeded `randn` stream in
channel order. -/
def noiseMats (env : NumEnv) (snrv : ℚ) : List Mat → RNGState → List Mat
  | [], _ => []
  | arr :: rest, st =>
    let p := drawMat env.randnAt st arr.r arr.c
    ⟨arr.r, arr.c, fun i j => env.sqrtq (1 / snrv) * p.1.e i j⟩ ::
      noiseMats env snrv rest p.2

/-- `preprocess_and_add_noise(x, snr, seed=0)` for a scalar `snr` (the scalar
is broadcast to `[snr] * len(x)`, line 113-114): standardize each channel,
reseed from SNR and shapes, and add per-channel Gaussian noise of magnitude
`sqrt(1/snr)`.  Returns `(x_std, x_std_noisy)`. -/
def preprocess_and_add_noise (env : NumEnv) (x : List Mat) (snrv : ℚ)
    (seed0 : ℤ) : List Mat × List Mat :=
  let x_std := x.map (standardize env)
  let ns := noiseMats env snrv x_std ⟨preprocessSeed x snrv seed0, 0⟩
  (x_std, List.zipWith Mat.add x_std ns)

/-- The noise arrays added by `preprocess_and_add_noise` (the
`sigma_noise * np.random.randn(*arr.shape)` summands of line 124). -/
def addedNoise (env : NumEnv) (x : List Mat) (snrv : ℚ) (seed0 : ℤ) :
    List Mat :=
  noiseMats env snrv (x.map (standardize env)) ⟨preprocessSeed x snrv seed0, 0⟩

/-- `SyntheticDataset` (lines 82-110): latent samples, generator, raw
channels, standardized channels, the added noise, and the noisy channels. -/
structure SyntheticDataset where
  n_samples : ℕ
  lat_dim : ℕ
  n_feats : ℕ
  n_channels : ℕ
  snr : ℚ
  train : Bool
  z : Mat
  generator : GeneratorUniform
  x : List Mat
  X : List Mat
  noise : List Mat
  X_noisy : List Mat

/-- `SyntheticDataset.__init__`: seeds `np.random` with 7 (train) or 14
(otherwise), draws `z ~ N(0, I)` of shape `(n_samples, lat_dim)`, builds the
generator (which reseeds with its default seed 100), applies it to `z`
(`none` if the forward assertion fails), and preprocesses with noise. -/
def SyntheticDataset.init (env : NumEnv) (n_samples lat_dim n_feats
    n_channels : ℕ) (snrv : ℚ) (train : Bool) (rng : RNGState) :
    Option SyntheticDataset :=
  let sd : ℤ := if train then 7 else 14
  let st0 := npseed sd rng
  let pz := drawMat env.normalAt st0 n_samples lat_dim
  let g := GeneratorUniform.init env lat_dim n_channels n_feats 100 pz.2
  (g.forward pz.1).map (fun x =>
    let pp := preprocess_and_add_noise env x snrv 0
    ⟨n_samples, lat_dim, n_feats, n_channels, snrv, train, pz.1, g, x,
     pp.1, addedNoise env x snrv 0, pp.2⟩)

/-- `SyntheticDataset.__len__`. -/
def SyntheticDataset.len (ds : SyntheticDataset) : ℕ := ds.n_samples

/-- `SyntheticDataset.shape`. -/
def SyntheticDataset.dsShape (ds : SyntheticDataset) : ℕ × ℕ :=
  (ds.len, ds.X.length)

/-! ### The training loop (`train_model`, lines 165-245)

The framework-computed parts of an epoch are abstracted into an observation:
the model's `state_dict()` at the point of the validation check of that epoch
(of abstract type `W`) and the validation-phase `epoch_loss`.  What the loop
itself does with them — the best-loss tracking of lines 232-235 and the final
restore of lines 242-243 — is modelled exactly. -/

/-- One epoch as the best-loss logic sees it: the `state_dict()` snapshot that
`copy.deepcopy` would take during that epoch's validation phase, and the
validation `epoch_loss`. -/
structure EpochObs (W : Type) where
  wts : W
  vloss : ℚ
  deriving DecidableEq

/-- Lines 233-235: `if phase == "val" and epoch_loss < best_loss:` update
`best_loss` and `best_model_wts`. -/
def bestStep {W : Type} (s : ℚ × W) (e : EpochObs W) : ℚ × W :=
  if e.vloss < s.1 then (e.vloss, e.wts) else s

/-- Line 170: `best_loss = 1e8`. -/
def initBest : ℚ := 100000000

/-- `train_model`'s best-tracking over a run: starting from the initial
weights and `best_loss = 1e8`, fold the per-epoch validation check over the
epochs; the final pair is `(best_loss, best_model_wts)`, and lines 242-243
load `best_model_wts` into the returned model. -/
def train_model {W : Type} (w0 : W) (es : List (EpochObs W)) : ℚ × W :=
  es.foldl bestStep (initBest, w0)

/-- The tracked `best_loss` after the first `k` epochs of a run. -/
def bestAfter {W : Type} (w0 : W) (es : List (EpochObs W)) (k : ℕ) : ℚ :=
  (train_model w0 (es.take k)).1

/-- One batch of a phase as the statistics lines 210-213 see it: the scalar
`loss`, `kl` and `ll` values and the batch size `inputs[0].size(0)`. -/
structure BatchStat where
  loss : ℚ
  kl : ℚ
  ll : ℚ
  bsize : ℕ

/-- Lines 211-213: `running_loss += loss.item() * inputs[0].size(0)` (and
likewise `kl`, `ll`), accumulated over the batches of one phase. -/
def runningStats (bs : List BatchStat) : ℚ × ℚ × ℚ :=
  bs.foldl (fun acc b =>
    (acc.1 + b.loss * b.bsize, acc.2.1 + b.kl * b.bsize,
     acc.2.2 + b.ll * b.bsize)) (0, 0, 0)

/-- Lines 217-219: the epoch statistics, each running total divided by
`len(dataloaders[phase].dataset)`. -/
def epochStats (bs : List BatchStat) (dslen : ℕ) : ℚ × ℚ × ℚ :=
  ((runningStats bs).1 / dslen, (runningStats bs).2.1 / dslen,
   (runningStats bs).2.2 / dslen)

/-! ### The module-level CI gate (lines 8-11) -/

/-- The top-level stages of the example script that follow the import-time
environment check. -/
inductive ScriptStage
  | buildDatasets
  | buildModels
  | trainModels
  | displayResults
  deriving DecidableEq

/-- The example script at import time: `if "CI_MODE" in os.environ:
sys.exit()` runs before anything else, so with `CI_MODE` present no stage
executes, otherwise the stages run in order. -/
def runExampleScript (osEnviron : List String) : List ScriptStage :=
  if "CI_MODE" ∈ osEnviron then []
  else [.buildDatasets, .buildModels, .trainModels, .displayResults]

/-! ### The model registry (`pynet/models/__init__.py`) -/

/-- The model classes imported by name into `pynet.models` at load time. -/
inductive ModelClass
  | SonoNet
  | UNet
  | VUNet
  | VanillaNet
  | NvNet
  | VoxelMorphNet
  | VTNet
  | ADDNet
  | RCNet
  | BrainNetCNN
  | DeepLabNet
  | PSPNet
  | BGDiscriminator
  | BGEncoder
  | BGCodeDiscriminator
  | BGGenerator
  | ResAENet
  | STAAENet
  | DeepCluster
  deriving DecidableEq

/-- The registry as populated by the import statements of
`pynet/models/__init__.py`, in source order: a flat name-to-class mapping. -/
def modelsRegistry : List (String × ModelClass) :=
  [("SonoNet", .SonoNet), ("UNet", .UNet), ("VUNet", .VUNet),
   ("VanillaNet", .VanillaNet), ("NvNet", .NvNet),
   ("VoxelMorphNet", .VoxelMorphNet), ("VTNet", .VTNet), ("ADDNet", .ADDNet),
   ("RCNet", .RCNet), ("BrainNetCNN", .BrainNetCNN),
   ("DeepLabNet", .DeepLabNet), ("PSPNet", .PSPNet),
   ("BGDiscriminator", .BGDiscriminator), ("BGEncoder", .BGEncoder),
   ("BGCodeDiscriminator", .BGCodeDiscriminator),
   ("BGGenerator", .BGGenerator), ("ResAENet", .ResAENet),
   ("STAAENet", .STAAENet), ("DeepCluster", .DeepCluster)]

/-- Attribute lookup on the module: the import/lookup interface callers use
(e.g. `from pynet.models... import MCVAE`-style access). -/
def lookupModel (reg : List (String × ModelClass)) (n : String) :
    Option ModelClass :=
  (reg.find? (fun p => p.1 == n)).map (fun p => p.2)

/-- The only operation the module offers at runtime: a named lookup.  No
mutating operation exists. -/
inductive RegAccess
  | access (n : String)

/-- Effect of a runtime access on the registry: lookups leave it unchanged. -/
def regStep (reg : List (String × ModelClass)) (_ : RegAccess) :
    List (String × ModelClass) := reg

/-- The registry after an arbitrary sequence of runtime accesses, starting
from its load-time population. -/
def regAfter (ops : List RegAccess) : List (String × ModelClass) :=
  ops.foldl regStep modelsRegistry

/-! ### The noise magnitude over the reals (line 123) -/

open MeasureTheory ProbabilityTheory in
/-- `sigma_noise = np.sqrt(1. / snr)` (line 123), over the reals. -/
noncomputable def sigma_noise (s : ℝ) : ℝ := Real.sqrt (1 / s)

open MeasureTheory ProbabilityTheory in
/-- The law of one added-noise entry `sigma_noise * e` for `e` a standard
normal draw (line 124), as a pushforward of the standard Gaussian. -/
noncomputable def addedNoiseLaw (s : ℝ) : Measure ℝ :=
  (gaussianReal 0 1).map (fun e => sigma_noise s * e)

/-- A trivial concrete environment: all streams constantly `0`, `sqrt`
constantly `0`, identity SVD factors.  Used to instantiate parametric
theorems at concrete inputs. -/
def envTrivial : NumEnv :=
  ⟨fun _ _ => 0, fun _ _ => 0, fun _ _ => 0, fun _ => 0, id, id⟩

/-! ## Theorems -/

/-- C3: for every pair of constructions of `GeneratorUniform` with the same
`(lat_dim, n_channels, n_feats, seed)` arguments — whatever the ambient
`np.random` state of each — the two instances have identical weight matrices,
and for every latent input `z` both produce identical channel outputs;
likewise two `SyntheticDataset` constructions with identical arguments yield
bit-identical latent samples `z` and channel projections.  This holds because
both constructors reseed the global RNG before drawing, discarding the
ambient state. -/
theorem C3_seeded_construction_deterministic :
    ∀ (env : NumEnv) (lat nch nf : ℕ) (seed : ℤ) (rng1 rng2 : RNGState)
      (z : Mat) (ns : ℕ) (snrv : ℚ) (t : Bool),
      GeneratorUniform.init env lat nch nf seed rng1 =
        GeneratorUniform.init env lat nch nf seed rng2 ∧
      (GeneratorUniform.init env lat nch nf seed rng1).forward z =
        (GeneratorUniform.init env lat nch nf seed rng2).forward z ∧
      SyntheticDataset.init env ns lat nf nch snrv t rng1 =
        SyntheticDataset.init env ns lat nf nch snrv t rng2 :=
  fun _ _ _ _ _ _ _ _ _ _ _ => ⟨rfl, rfl, rfl⟩

/-- C7: if `CI_MODE` is present in the process environment the example script
exits at import time before running any stage; if it is absent all stages
run. -/
theorem C7_ci_mode_gate (osEnviron : List String) :
    ("CI_MODE" ∈ osEnviron → runExampleScript osEnviron = []) ∧
    ("CI_MODE" ∉ osEnviron → runExampleScript osEnviron =
      [.buildDatasets, .buildModels, .trainModels, .displayResults]) := by
  constructor
  · intro h
    simp [runExampleScript, h]
  · intro h
    simp [runExampleScript, h]

/-- Witness for C7 at the concrete environments `["CI_MODE"]` and
`["PATH"]`. -/
theorem C7_ci_mode_gate_witness :
    runExampleScript ["CI_MODE"] = [] ∧
    runExampleScript ["PATH"] =
      [.buildDatasets, .buildModels, .trainModels, .displayResults] :=
  ⟨(C7_ci_mode_gate ["CI_MODE"]).1 (by simp),
   (C7_ci_mode_gate ["PATH"]).2 (by simp)⟩

/-- C8: the model registry is a flat name-to-class mapping fully populated at
module load; no sequence of runtime accesses mutates it, and looking up any
registered name through it returns that name's class. -/
theorem C8_registry_immutable_lookup (ops : List RegAccess) :
    regAfter ops = modelsRegistry ∧
    ∀ p ∈ modelsRegistry, lookupModel (regAfter ops) p.1 = some p.2 := by
  have h : regAfter ops = modelsRegistry := by
    induction ops with
    | nil => rfl
    | cons a l ih => exact ih
  refine ⟨h, ?_⟩
  rw [h]
  decide

/-- Witness for C8 at a concrete access sequence and registry entry. -/
theorem C8_registry_immutable_lookup_witness :
    regAfter [RegAccess.access "UNet"] = modelsRegistry ∧
    lookupModel (regAfter [RegAccess.access "UNet"]) "UNet" =
      some ModelClass.UNet :=
  ⟨(C8_registry_immutable_lookup [RegAccess.access "UNet"]).1,
   (C8_registry_immutable_lookup [RegAccess.access "UNet"]).2
     ("UNet", ModelClass.UNet) (by decide)⟩

/-- C9: `GeneratorUniform.forward` succeeds exactly when the input's second
dimension equals `lat_dim`: then it returns a list of `n_channels` outputs,
and otherwise the assertion fails (modelled as `none`). -/
theorem C9_forward_dimension_assertion (g : GeneratorUniform) (z : Mat) :
    (z.c = g.lat_dim →
      ∃ l, g.forward z = some l ∧ l.length = g.n_channels) ∧
    (z.c ≠ g.lat_dim → g.forward z = none) := by
  constructor
  · intro h
    exact ⟨(List.range g.n_channels).map
        (fun ch => linearApply (g.W.getD ch default) z),
      by simp [GeneratorUniform.forward, h], by simp⟩
  · intro h
    simp [GeneratorUniform.forward, h]

/-- Witness for C9 at a concrete generator and concrete inputs of matching
and mismatching width. -/
theorem C9_forward_dimension_assertion_witness :
    (∃ l, (GeneratorUniform.init envTrivial 2 3 4 100 ⟨0, 0⟩).forward
        ⟨5, 2, fun _ _ => 0⟩ = some l ∧ l.length = 3) ∧
    (GeneratorUniform.init envTrivial 2 3 4 100 ⟨0, 0⟩).forward
        ⟨5, 3, fun _ _ => 0⟩ = none := by
  constructor
  · obtain ⟨l, hl, hlen⟩ :=
      (C9_forward_dimension_assertion
        (GeneratorUniform.init envTrivial 2 3 4 100 ⟨0, 0⟩)
        ⟨5, 2, fun _ _ => 0⟩).1 rfl
    exact ⟨l, hl, hlen⟩
  · exact (C9_forward_dimension_assertion
      (GeneratorUniform.init envTrivial 2 3 4 100 ⟨0, 0⟩)
      ⟨5, 3, fun _ _ => 0⟩).2 (by decide)

/-- C6: in every phase of every epoch, each epoch statistic equals the sum
over batches of the batch value weighted by that batch's size, divided by the
dataset length. -/
theorem C6_stats_weighted_by_batch_size (bs : List BatchStat) (dslen : ℕ) :
    epochStats bs dslen =
      ((bs.map (fun b => b.loss * (b.bsize : ℚ))).sum / dslen,
       (bs.map (fun b => b.kl * (b.bsize : ℚ))).sum / dslen,
       (bs.map (fun b => b.ll * (b.bsize : ℚ))).sum / dslen) := by
  have key : ∀ (l : List BatchStat) (a b c : ℚ),
      l.foldl (fun acc x =>
        (acc.1 + x.loss * (x.bsize : ℚ), acc.2.1 + x.kl * (x.bsize : ℚ),
         acc.2.2 + x.ll * (x.bsize : ℚ))) (a, b, c) =
      (a + (l.map (fun x => x.loss * (x.bsize : ℚ))).sum,
       b + (l.map (fun x => x.kl * (x.bsize : ℚ))).sum,
       c + (l.map (fun x => x.ll * (x.bsize : ℚ))).sum) := by
    intro l
    induction l with
    | nil => intro a b c; simp
    | cons x l ih =>
      intro a b c
      simp only [List.foldl_cons, List.map_cons, List.sum_cons, ih,
        Prod.mk.injEq]
      refine ⟨by ring, by ring, by ring⟩
  unfold epochStats runningStats
  rw [key]
  simp

open MeasureTheory ProbabilityTheory in
/-- C2: for every SNR `s > 0`, the noise added per entry is `sigma * e` with
`sigma = sqrt(1/s)` and `e` a standard normal draw, so its law is the
centered Gaussian of variance `1/s` (and `sigma ^ 2 = 1/s`). -/
theorem C2_noise_variance_inv_snr (s : ℝ) (hs : 0 < s) :
    addedNoiseLaw s = gaussianReal 0 (Real.toNNReal (1 / s)) ∧
    sigma_noise s ^ 2 = 1 / s := by
  have h1 : (0 : ℝ) ≤ 1 / s := by positivity
  have hsq : sigma_noise s ^ 2 = 1 / s := Real.sq_sqrt h1
  refine ⟨?_, hsq⟩
  unfold addedNoiseLaw
  have hmap : (fun e => sigma_noise s * e) = (sigma_noise s * ·) := rfl
  rw [hmap, gaussianReal_map_const_mul]
  have hv : (⟨sigma_noise s ^ 2, sq_nonneg _⟩ : NNReal) * 1 =
      Real.toNNReal (1 / s) := by
    rw [mul_one]
    ext
    simp [hsq, Real.coe_toNNReal _ h1, hs.le]
  rw [mul_zero, hv]

open MeasureTheory ProbabilityTheory in
/-- Witness for C2 at the concrete SNR `s = 4`. -/
theorem C2_noise_variance_inv_snr_witness :
    (0 : ℝ) < 4 ∧
    (addedNoiseLaw 4 = gaussianReal 0 (Real.toNNReal (1 / 4)) ∧
     sigma_noise 4 ^ 2 = 1 / 4) :=
  ⟨by norm_num, C2_noise_variance_inv_snr 4 (by norm_num)⟩

/-- Standardization preserves the shape of an array. -/
theorem standardize_shape (env : NumEnv) (m : Mat) :
    (standardize env m).shape = m.shape := rfl

/-- The per-channel shapes of the standardized list equal those of the
input. -/
theorem map_shape_standardize (env : NumEnv) (x : List Mat) :
    (x.map (standardize env)).map Mat.shape = x.map Mat.shape := by
  induction x with
  | nil => rfl
  | cons a t ih => simp only [List.map_cons, ih]; rfl

/-- The noise arrays depend on the standardized channels only through their
shapes: inputs with equal per-channel shapes get identical noise. -/
theorem noiseMats_shape_only (env : NumEnv) (snrv : ℚ) :
    ∀ (l1 l2 : List Mat) (st : RNGState),
      l1.map Mat.shape = l2.map Mat.shape →
      noiseMats env snrv l1 st = noiseMats env snrv l2 st := by
  intro l1
  induction l1 with
  | nil =>
    intro l2 st h
    cases l2 with
    | nil => rfl
    | cons b t => simp at h
  | cons a t ih =>
    intro l2 st h
    cases l2 with
    | nil => simp at h
    | cons b t2 =>
      simp only [List.map_cons, List.cons.injEq, Mat.shape, Prod.mk.injEq]
        at h
      obtain ⟨⟨hr, hc⟩, ht⟩ := h
      show (⟨a.r, a.c, _⟩ : Mat) :: noiseMats env snrv t _ = _
      rw [hr, hc, ih t2 _ ht]
      rfl

/-- The noise seed depends on the input only through its length and the first
channel's shape. -/
theorem preprocessSeed_shape_only (x1 x2 : List Mat) (snrv : ℚ) (seed0 : ℤ)
    (h : x1.map Mat.shape = x2.map Mat.shape) :
    preprocessSeed x1 snrv seed0 = preprocessSeed x2 snrv seed0 := by
  have hlen : x1.length = x2.length := by
    simpa using congrArg List.length h
  have hhead : (x1.getD 0 default).shape = (x2.getD 0 default).shape := by
    cases x1 with
    | nil =>
      cases x2 with
      | nil => rfl
      | cons b t => simp at hlen
    | cons a t =>
      cases x2 with
      | nil => simp at hlen
      | cons b t2 =>
        simp only [List.map_cons, List.cons.injEq] at h
        simpa using h.1
  simp only [Mat.shape, Prod.mk.injEq] at hhead
  unfold preprocessSeed
  rw [hlen, hhead.1, hhead.2]

/-- The added noise depends on the raw channels only through their shapes. -/
theorem addedNoise_shape_only (env : NumEnv) (x1 x2 : List Mat) (snrv : ℚ)
    (seed0 : ℤ) (h : x1.map Mat.shape = x2.map Mat.shape) :
    addedNoise env x1 snrv seed0 = addedNoise env x2 snrv seed0 := by
  unfold addedNoise
  rw [preprocessSeed_shape_only x1 x2 snrv seed0 h]
  exact noiseMats_shape_only env snrv _ _ _
    (by rw [map_shape_standardize, map_shape_standardize, h])

/-- C5: the noise seed is the stated deterministic function of the SNR and of
the data shapes, and (therefore) two calls with equal SNR and equal input
shapes add identical noise arrays. -/
theorem C5_noise_seed_deterministic (env : NumEnv) (x x2 : List Mat)
    (snrv : ℚ) (seed0 : ℤ) :
    preprocessSeed x snrv seed0 =
      seed0 + 3 * pyInt (snrv + 1) + 5 * (x.length : ℤ)
        + 7 * ((x.getD 0 default).r : ℤ)
        + 11 * ((x.getD 0 default).c : ℤ) ∧
    (x.map Mat.shape = x2.map Mat.shape →
      addedNoise env x snrv seed0 = addedNoise env x2 snrv seed0) :=
  ⟨rfl, fun h => addedNoise_shape_only env x x2 snrv seed0 h⟩

/-- Witness for C5 at two concrete single-channel inputs of equal shape but
different entries. -/
theorem C5_noise_seed_deterministic_witness :
    preprocessSeed [⟨2, 3, fun _ _ => 0⟩] 10 0 =
      0 + 3 * pyInt (10 + 1) + 5 * ((1 : ℕ) : ℤ) + 7 * ((2 : ℕ) : ℤ)
        + 11 * ((3 : ℕ) : ℤ) ∧
    addedNoise envTrivial [⟨2, 3, fun _ _ => 0⟩] 10 0 =
      addedNoise envTrivial [⟨2, 3, fun _ _ => 1⟩] 10 0 :=
  ⟨(C5_noise_seed_deterministic envTrivial [⟨2, 3, fun _ _ => 0⟩]
      [⟨2, 3, fun _ _ => 1⟩] 10 0).1,
   (C5_noise_seed_deterministic envTrivial [⟨2, 3, fun _ _ => 0⟩]
      [⟨2, 3, fun _ _ => 1⟩] 10 0).2 rfl⟩

/-- When the forward assertion holds, `forward` returns the mapped channel
outputs. -/
theorem forward_some (g : GeneratorUniform) (z : Mat)
    (h : z.c = g.lat_dim) :
    g.forward z = some ((List.range g.n_channels).map
      (fun ch => linearApply (g.W.getD ch default) z)) := by
  simp [GeneratorUniform.forward, h]

/-- C10: the noise seed does not depend on the dataset's `train` flag — for
every pair of `SyntheticDataset` constructions differing only in
`train=True` versus `train=False` (and in their ambient RNG states), the
noise arrays added to the two datasets are identical. -/
theorem C10_noise_independent_of_train_flag (env : NumEnv)
    (ns lat nf nch : ℕ) (snrv : ℚ) (rng1 rng2 : RNGState) :
    (SyntheticDataset.init env ns lat nf nch snrv true rng1).map
        (fun ds => ds.noise) =
      (SyntheticDataset.init env ns lat nf nch snrv false rng2).map
        (fun ds => ds.noise) := by
  unfold SyntheticDataset.init
  dsimp only
  rw [forward_some _ _ rfl, forward_some _ _ rfl]
  dsimp only [Option.map_some']
  congr 1
  apply addedNoise_shape_only
  simp only [List.map_map]
  exact List.map_congr_left fun ch _ => rfl

/-- The tracked best loss of the fold is the running minimum of the observed
validation losses. -/
theorem train_fold_fst {W : Type} (es : List (EpochObs W)) :
    ∀ (b : ℚ) (w : W),
      (es.foldl bestStep (b, w)).1 =
        es.foldl (fun a e => min a e.vloss) b := by
  induction es with
  | nil => intro b w; rfl
  | cons e t ih =>
    intro b w
    simp only [List.foldl_cons]
    by_cases h : e.vloss < b
    · have hb : bestStep (b, w) e = (e.vloss, e.wts) := by
        simp [bestStep, h]
      rw [hb, ih, min_eq_right h.le]
    · have hb : bestStep (b, w) e = (b, w) := by simp [bestStep, h]
      rw [hb, ih, min_eq_left (not_lt.1 h)]

/-- A running minimum never exceeds its starting value. -/
theorem foldl_min_le_init {W : Type} (l : List (EpochObs W)) :
    ∀ b : ℚ, l.foldl (fun a e => min a e.vloss) b ≤ b := by
  induction l with
  | nil => intro b; exact le_refl b
  | cons e t ih =>
    intro b
    exact le_trans (ih (min b e.vloss)) (min_le_left _ _)

/-- Full characterization of the best-tracking fold: either no epoch beats
the starting best and the state is unchanged, or the state is the loss and
snapshot of the first epoch achieving the minimum observed loss below the
starting best. -/
theorem bestSpec {W : Type} :
    ∀ (es : List (EpochObs W)) (b : ℚ) (w : W),
      (es.foldl bestStep (b, w) = (b, w) ∧ ∀ e ∈ es, b ≤ e.vloss) ∨
      (∃ i, ∃ h : i < es.length,
        es.foldl bestStep (b, w) =
          ((es.get ⟨i, h⟩).vloss, (es.get ⟨i, h⟩).wts) ∧
        (es.get ⟨i, h⟩).vloss < b ∧
        (∀ e ∈ es, (es.get ⟨i, h⟩).vloss ≤ e.vloss) ∧
        (∀ j, ∀ hj : j < i, (es.get ⟨i, h⟩).vloss <
          (es.get ⟨j, hj.trans h⟩).vloss)) := by
  intro es
  induction es with
  | nil =>
    intro b w
    left
    exact ⟨rfl, by simp⟩
  | cons e t ih =>
    intro b w
    by_cases h : e.vloss < b
    · have hb : bestStep (b, w) e = (e.vloss, e.wts) := by
        simp [bestStep, h]
      rcases ih e.vloss e.wts with ⟨heq, hall⟩ |
        ⟨i, hi, heq, hlt, hmin, hfirst⟩
      · right
        refine ⟨0, Nat.succ_pos _, ?_, h, ?_, ?_⟩
        · show t.foldl bestStep (bestStep (b, w) e) = _
          rw [hb, heq]
          rfl
        · intro x hx
          rcases List.mem_cons.1 hx with rfl | hx
          · exact le_refl _
          · exact hall x hx
        · intro j hj
          exact absurd hj (Nat.not_lt_zero j)
      · right
        refine ⟨i + 1, Nat.succ_lt_succ hi, ?_, lt_trans hlt h, ?_, ?_⟩
        · show t.foldl bestStep (bestStep (b, w) e) = _
          rw [hb, heq]
          rfl
        · intro x hx
          rcases List.mem_cons.1 hx with rfl | hx
          · exact hlt.le
          · exact hmin x hx
        · intro j hj
          cases j with
          | zero => exact hlt
          | succ jj => exact hfirst jj (Nat.lt_of_succ_lt_succ hj)
    · have hb : bestStep (b, w) e = (b, w) := by simp [bestStep, h]
      rcases ih b w with ⟨heq, hall⟩ | ⟨i, hi, heq, hlt, hmin, hfirst⟩
      · left
        constructor
        · show t.foldl bestStep (bestStep (b, w) e) = (b, w)
          rw [hb, heq]
        · intro x hx
          rcases List.mem_cons.1 hx with rfl | hx
          · exact not_lt.1 h
          · exact hall x hx
      · right
        refine ⟨i + 1, Nat.succ_lt_succ hi, ?_, hlt, ?_, ?_⟩
        · show t.foldl bestStep (bestStep (b, w) e) = _
          rw [hb, heq]
          rfl
        · intro x hx
          rcases List.mem_cons.1 hx with rfl | hx
          · exact le_of_lt (lt_of_lt_of_le hlt (not_lt.1 h))
          · exact hmin x hx
        · intro j hj
          cases j with
          | zero => exact lt_of_lt_of_le hlt (not_lt.1 h)
          | succ jj => exact hfirst jj (Nat.lt_of_succ_lt_succ hj)

/-- C1 (amended): over any run, the tracked best loss is monotonically
non-increasing, it changes at an epoch only when that epoch's validation loss
is strictly below the current best, and — provided some epoch's validation
loss is strictly below the initial best `1e8` — the final weights and best
loss are the snapshot and loss of the first epoch achieving the minimum
observed validation loss. -/
theorem C1_best_tracking {W : Type} (w0 : W) (es : List (EpochObs W)) :
    (∀ i j : ℕ, i ≤ j → bestAfter w0 es j ≤ bestAfter w0 es i) ∧
    (∀ k, ∀ hk : k < es.length,
      bestAfter w0 es (k + 1) ≠ bestAfter w0 es k →
        (es.get ⟨k, hk⟩).vloss < bestAfter w0 es k) ∧
    ((∃ e ∈ es, e.vloss < initBest) →
      ∃ i, ∃ h : i < es.length,
        (train_model w0 es).2 = (es.get ⟨i, h⟩).wts ∧
        (train_model w0 es).1 = (es.get ⟨i, h⟩).vloss ∧
        (∀ e ∈ es, (es.get ⟨i, h⟩).vloss ≤ e.vloss) ∧
        (∀ j, ∀ hj : j < i, (es.get ⟨i, h⟩).vloss <
          (es.get ⟨j, hj.trans h⟩).vloss)) := by
  refine ⟨?_, ?_, ?_⟩
  · intro i j hij
    unfold bestAfter train_model
    rw [train_fold_fst, train_fold_fst]
    have hj : es.take j = es.take i ++ (es.drop i).take (j - i) := by
      rw [← List.take_add]
      congr 1
      omega
    rw [hj, List.foldl_append]
    exact foldl_min_le_init _ _
  · intro k hk hne
    unfold bestAfter train_model at hne ⊢
    have htake : es.take (k + 1) = es.take k ++ [es.get ⟨k, hk⟩] := by
      rw [List.take_succ]
      congr 1
      rw [List.getElem?_eq_getElem hk]
      rfl
    rw [htake, List.foldl_append] at hne
    simp only [List.foldl_cons, List.foldl_nil] at hne
    set s := List.foldl bestStep (initBest, w0) (List.take k es) with hs
    by_cases h : (es.get ⟨k, hk⟩).vloss < s.1
    · exact h
    · exfalso
      apply hne
      unfold bestStep
      rw [if_neg h]
  · intro hex
    rcases bestSpec es initBest w0 with ⟨heq, hall⟩ |
      ⟨i, hi, heq, hlt, hmin, hfirst⟩
    · obtain ⟨e, he, helt⟩ := hex
      exact absurd helt (not_lt.2 (hall e he))
    · refine ⟨i, hi, ?_, ?_, hmin, hfirst⟩
      · unfold train_model
        rw [heq]
      · unfold train_model
        rw [heq]

/-- Counterexample to C1 as stated: in the one-epoch run whose validation
loss is exactly `1e8` (the initial `best_loss`) and whose snapshot weights
are `1`, that epoch achieves the minimum observed validation loss, yet the
update guard `epoch_loss < best_loss` never fires and the returned weights
are the initial weights `0`, not the epoch's snapshot `1`. -/
theorem C1_best_tracking_counterexample :
    train_model (0 : ℕ) [⟨1, 100000000⟩] = (100000000, 0) ∧
    (0 : ℕ) ≠ 1 := by decide

/-- Witness for C1 (amended) at a concrete three-epoch run with a tied
minimum: the first epoch achieving the minimum (index 1) supplies the final
weights. -/
theorem C1_best_tracking_witness :
    (bestAfter (0 : ℕ) [⟨3, 5⟩, ⟨7, 2⟩, ⟨9, 2⟩] 3 ≤
      bestAfter (0 : ℕ) [⟨3, 5⟩, ⟨7, 2⟩, ⟨9, 2⟩] 1) ∧
    (∃ i, ∃ h : i < ([⟨3, 5⟩, ⟨7, 2⟩, ⟨9, 2⟩] : List (EpochObs ℕ)).length,
      (train_model (0 : ℕ) [⟨3, 5⟩, ⟨7, 2⟩, ⟨9, 2⟩]).2 =
        (([⟨3, 5⟩, ⟨7, 2⟩, ⟨9, 2⟩] : List (EpochObs ℕ)).get ⟨i, h⟩).wts ∧
      (train_model (0 : ℕ) [⟨3, 5⟩, ⟨7, 2⟩, ⟨9, 2⟩]).1 =
        (([⟨3, 5⟩, ⟨7, 2⟩, ⟨9, 2⟩] : List (EpochObs ℕ)).get ⟨i, h⟩).vloss ∧
      (∀ e ∈ ([⟨3, 5⟩, ⟨7, 2⟩, ⟨9, 2⟩] : List (EpochObs ℕ)),
        (([⟨3, 5⟩, ⟨7, 2⟩, ⟨9, 2⟩] : List (EpochObs ℕ)).get
          ⟨i, h⟩).vloss ≤ e.vloss) ∧
      (∀ j, ∀ hj : j < i,
        (([⟨3, 5⟩, ⟨7, 2⟩, ⟨9, 2⟩] : List (EpochObs ℕ)).get
          ⟨i, h⟩).vloss <
          (([⟨3, 5⟩, ⟨7, 2⟩, ⟨9, 2⟩] : List (EpochObs ℕ)).get
            ⟨j, hj.trans h⟩).vloss)) :=
  ⟨(C1_best_tracking (0 : ℕ) [⟨3, 5⟩, ⟨7, 2⟩, ⟨9, 2⟩]).1 1 3
      (by norm_num),
   (C1_best_tracking (0 : ℕ) [⟨3, 5⟩, ⟨7, 2⟩, ⟨9, 2⟩]).2.2
      ⟨⟨7, 2⟩, by decide, by decide⟩⟩

/-- The generator builds one weight matrix per channel. -/
theorem buildW_length (env : NumEnv) (lat nf : ℕ) :
    ∀ (k : ℕ) (st : RNGState), (buildW env lat nf k st).1.length = k := by
  intro k
  induction k with
  | zero => intro st; rfl
  | succ n ih => intro st; simp [buildW, ih]

/-- If the reduced SVD's `u` factor has the shape of its input (numpy's
contract for `n_feats ≥ lat_dim`), every generator weight matrix has shape
`(n_feats, lat_dim)`. -/
theorem buildW_shapes (env : NumEnv) (lat nf : ℕ)
    (hsvd : ∀ m : Mat, m.c ≤ m.r →
      (env.svdU m).r = m.r ∧ (env.svdU m).c = m.c)
    (hlf : lat ≤ nf) :
    ∀ (k : ℕ) (st : RNGState), ∀ w ∈ (buildW env lat nf k st).1,
      w.r = nf ∧ w.c = lat := by
  intro k
  induction k with
  | zero => intro st w hw; simp [buildW] at hw
  | succ n ih =>
    intro st w hw
    simp only [buildW, List.mem_cons] at hw
    rcases hw with rfl | hw
    · rw [if_pos hlf]
      exact hsvd _ hlf
    · exact ih _ w hw

/-- General shape correctness of `SyntheticDataset`: under numpy's reduced
SVD shape contract and `lat_dim ≤ n_feats`, the construction succeeds and
every per-channel array `X[c]` has shape `(n_samples, n_feats)`. -/
theorem dataset_X_shapes (env : NumEnv)
    (hsvd : ∀ m : Mat, m.c ≤ m.r →
      (env.svdU m).r = m.r ∧ (env.svdU m).c = m.c)
    (ns lat nf nch : ℕ) (hlf : lat ≤ nf) (snrv : ℚ) (t : Bool)
    (rng : RNGState) :
    ∃ ds, SyntheticDataset.init env ns lat nf nch snrv t rng = some ds ∧
      ds.X.length = nch ∧ ∀ m ∈ ds.X, m.r = ns ∧ m.c = nf := by
  unfold SyntheticDataset.init
  dsimp only
  rw [forward_some _ _ rfl]
  dsimp only [Option.map_some']
  refine ⟨_, rfl, ?_, ?_⟩
  · simp [preprocess_and_add_noise, GeneratorUniform.init]
  · intro m hm
    dsimp only at hm
    unfold preprocess_and_add_noise at hm
    dsimp only at hm
    rcases List.mem_map.1 hm with ⟨m0, hm0, rfl⟩
    rcases List.mem_map.1 hm0 with ⟨ch, hch, rfl⟩
    have hch2 : ch < nch := List.mem_range.1 hch
    have hgetmem : (buildW env lat nf nch ⟨100, 0⟩).1.getD ch default ∈
        (buildW env lat nf nch ⟨100, 0⟩).1 := by
      have hlen : ch < (buildW env lat nf nch ⟨100, 0⟩).1.length := by
        rw [buildW_length]
        exact hch2
      rw [List.getD_eq_getElem _ _ hlen]
      exact List.getElem_mem _
    have hw := buildW_shapes env lat nf hsvd hlf nch ⟨100, 0⟩ _ hgetmem
    exact ⟨rfl, hw.1⟩

/-- C4: constructing `SyntheticDataset` with `n_samples=500`, `lat_dim=2`,
`n_feats=4`, `n_channels=3` yields per-channel arrays `X[c]` of shape
`(500, 4)` for every channel `c`. -/
theorem C4_dataset_concrete_shapes (env : NumEnv)
    (hsvd : ∀ m : Mat, m.c ≤ m.r →
      (env.svdU m).r = m.r ∧ (env.svdU m).c = m.c)
    (snrv : ℚ) (t : Bool) (rng : RNGState) :
    ∃ ds, SyntheticDataset.init env 500 2 4 3 snrv t rng = some ds ∧
      ds.X.length = 3 ∧ ∀ m ∈ ds.X, m.r = 500 ∧ m.c = 4 :=
  dataset_X_shapes env hsvd 500 2 4 3 (by norm_num) snrv t rng

/-- Witness for C4 at the trivial concrete environment (whose SVD factors
are the identity, satisfying the shape contract). -/
theorem C4_dataset_concrete_shapes_witness :
    ∃ ds, SyntheticDataset.init envTrivial 500 2 4 3 10 true ⟨0, 0⟩ =
        some ds ∧
      ds.X.length = 3 ∧ ∀ m ∈ ds.X, m.r = 500 ∧ m.c = 4 :=
  C4_dataset_concrete_shapes envTrivial (fun _ _ => ⟨rfl, rfl⟩) 10 true
    ⟨0, 0⟩

end PyNet
